import Mathlib

/-!
Shallow embedding of the question-extraction core of
`pdf_question_extractor/extract_pdf_content.py`.

Strings are modelled as `List Char`.  Each Python regex operation is modelled
by an equivalent greedy matcher; the patterns involved never need
backtracking, because in every optional/starred position the characters that
could be given back can never start the following pattern part (argued in
the doc comment of each matcher).  Image fingerprints
(`_get_image_hash`, an MD5 of the normalized pixels) are modelled as opaque
natural numbers, and writing an image file to disk is modelled as succeeding.
-/

abbrev Str := List Char

/-- Python whitespace, for `str.split()`, `str.strip()` and regex `\s`
(ASCII range). -/
def isSpace (c : Char) : Bool :=
  c == ' ' || c == '\t' || c == '\n' || c == '\r' || c == '\x0b' || c == '\x0c'

/-- Python `str.strip()`: drop whitespace from both ends. -/
def pyStrip (s : Str) : Str :=
  ((s.dropWhile isSpace).reverse.dropWhile isSpace).reverse

/-- Helper for `pySplit`: scans the string, accumulating the current word in
reverse. -/
def pySplitAux : Str → Str → List Str
  | [], acc => if acc.isEmpty then [] else [acc.reverse]
  | c :: t, acc =>
    if isSpace c then
      if acc.isEmpty then pySplitAux t [] else acc.reverse :: pySplitAux t []
    else pySplitAux t (c :: acc)

/-- Python `str.split()` with no argument: split on whitespace runs,
dropping empty pieces. -/
def pySplit (s : Str) : List Str := pySplitAux s []

/-- Python `' '.join(ws)`. -/
def joinSpace : List Str → Str
  | [] => []
  | [w] => w
  | w :: ws => w ++ ' ' :: joinSpace ws

/-- Python `' '.join(text.split()).strip()`: collapse whitespace runs to single
spaces and trim (last line of `_clean_question_text`). -/
def collapseWS (s : Str) : Str := pyStrip (joinSpace (pySplit s))

/-- A word as produced by `str.split()`: nonempty and whitespace-free. -/
def goodWord (w : Str) : Prop := w ≠ [] ∧ ∀ c ∈ w, isSpace c = false

/-- One of A-D in either case: regex class `[A-D]` under `re.IGNORECASE`. -/
def ansLetter (c : Char) : Bool :=
  c == 'A' || c == 'B' || c == 'C' || c == 'D' ||
  c == 'a' || c == 'b' || c == 'c' || c == 'd'

/-- Greedy `\.?`: consume a leading period if present. -/
def skipDot : Str → Str
  | '.' :: t => t
  | r => r

/-- Greedy `\[?`: consume a leading opening bracket if present. -/
def skipLBracket : Str → Str
  | '[' :: t => t
  | r => r

/-- Greedy `\]?`: consume a leading closing bracket if present. -/
def skipRBracket : Str → Str
  | ']' :: t => t
  | r => r

/-- Greedy match of `Ans\.?\s*\[?[A-D]\]?` (IGNORECASE) at the head of the
string, returning the remainder after the match.  Greedy matching without
backtracking is faithful here: giving back the optional `.`, a whitespace
character, or the optional `[` would require the next pattern part to match
`.`, whitespace or `[`, none of which is in `[A-Da-d]` (resp. `\[?[A-Da-d]`).
`ansAfterLiteral` handles the part after the literal `Ans`. -/
def ansAfterLiteral (r : Str) : Option Str :=
  match skipLBracket ((skipDot r).dropWhile isSpace) with
  | c :: t => if ansLetter c then some (skipRBracket t) else none
  | [] => none

def matchAnsTail : Str → Option Str
  | a :: n :: s :: rest =>
    if (a == 'A' || a == 'a') && (n == 'n' || n == 'N') && (s == 's' || s == 'S') then
      ansAfterLiteral rest
    else none
  | _ => none

/-- Python `int(...)` on a run of decimal digits. -/
def digitsToNat (ds : Str) : Nat := ds.foldl (fun a c => 10 * a + (c.toNat - 48)) 0

/-- Greedy match of `---page(\d+)---` at the head of the string, returning the
captured page number and the remainder.  Greedy `\d+` is faithful: giving back
a digit would require `-` to be a digit. -/
def pageMarkerAt : Str → Option (Nat × Str)
  | '-' :: '-' :: '-' :: 'p' :: 'a' :: 'g' :: 'e' :: rest =>
    let ds := rest.takeWhile Char.isDigit
    if ds.isEmpty then none
    else
      match rest.dropWhile Char.isDigit with
      | '-' :: '-' :: '-' :: rem => some (digitsToNat ds, rem)
      | _ => none
  | _ => none

def matchPageTail (s : Str) : Option Str := (pageMarkerAt s).map (·.2)

/-- Python `re.sub(pattern, '', s)`: scan left to right, drop every non-overlapping
match, keep all other characters.  `fuel` bounds the recursion and is
initialised with the string length, which suffices because every match of the
two patterns used consumes at least one character. -/
def scrubAux (m : Str → Option Str) : Nat → Str → Str
  | 0, s => s
  | _ + 1, [] => []
  | fuel + 1, c :: rest =>
    match m (c :: rest) with
    | some rem => scrubAux m fuel rem
    | none => c :: scrubAux m fuel rest

/-- Model of `re.sub(r'Ans\.?\s*\[?[A-D]\]?', '', text, flags=re.IGNORECASE)`. -/
def pyAnsSub (s : Str) : Str := scrubAux matchAnsTail s.length s

/-- Model of `re.sub(r'---page\d+---', '', text)`. -/
def pyPageSub (s : Str) : Str := scrubAux matchPageTail s.length s

/-- Model of `_clean_question_text`. -/
def clean_question_text (s : Str) : Str := collapseWS (pyPageSub (pyAnsSub s))

/-- Decimal rendering of a number, as in Python f-strings (fuel recursion on
the number of digits). -/
def natToStrAux : Nat → Nat → Str
  | 0, _ => []
  | fuel + 1, n =>
    if n < 10 then [Char.ofNat (48 + n)]
    else natToStrAux fuel (n / 10) ++ [Char.ofNat (48 + n % 10)]

def natToStr (n : Nat) : Str := natToStrAux (n + 1) n

structure OptionRec where
  label : Char
  text : Str
deriving DecidableEq

/-- Match of the captured group `\[[A-D]\][^\[\]]*` at the head of the string:
a bracketed label plus the following bracket-free run (greedy, nothing
follows, so maximal).  Returns the captured text and the remainder. -/
def optPartMatch : Str → Option (Str × Str)
  | '[' :: c :: ']' :: rest =>
    if c == 'A' || c == 'B' || c == 'C' || c == 'D' then
      some ('[' :: c :: ']' :: rest.takeWhile (fun d => !(d == '[' || d == ']')),
            rest.dropWhile (fun d => !(d == '[' || d == ']')))
    else none
  | _ => none

/-- Python `re.split(r'(\[[A-D]\][^\[\]]*)', s)`: alternating gaps and captured
matches, in order; gaps may be empty strings.  Fuel is the string length plus
one since each step consumes a character or ends the scan. -/
def optSplitAux : Nat → Str → Str → List Str
  | 0, acc, s => [acc.reverse ++ s]
  | _ + 1, acc, [] => [acc.reverse]
  | fuel + 1, acc, c :: rest =>
    match optPartMatch (c :: rest) with
    | some (m, rem) => acc.reverse :: m :: optSplitAux fuel [] rem
    | none => optSplitAux fuel (c :: acc) rest

def optSplit (s : Str) : List Str := optSplitAux (s.length + 1) [] s

/-- Model of `re.match(r'\[([A-D])\](.*)', part.strip())` plus the per-part checks of
`_extract_options`; `.` does not match a newline, and the extracted text is
stripped and required nonempty. -/
def partToOption (p : Str) : Option OptionRec :=
  match pyStrip p with
  | '[' :: c :: ']' :: rest =>
    if c == 'A' || c == 'B' || c == 'C' || c == 'D' then
      let t := pyStrip (rest.takeWhile (fun d => !(d == '\n')))
      if t.isEmpty then none else some ⟨c, t⟩
    else none
  | _ => none

/-- Model of `_extract_options`. -/
def extract_options (q : Str) : List OptionRec :=
  (optSplit q).filterMap (fun p => if (pyStrip p).isEmpty then none else partToOption p)

/-- Case-insensitive prefix test (for the IGNORECASE literal parts). -/
def ciPrefix : Str → Str → Bool
  | [], _ => true
  | _ :: _, [] => false
  | p :: ps, c :: cs => (p.toLower == c.toLower) && ciPrefix ps cs

def opChar (c : Char) : Bool := c == '=' || c == '≠' || c == '<' || c == '>'

/-- Match of `\d+\s*[=≠<>]\s*\d+` at one position (greedy `\d+`/`\s*` are
faithful: a digit or space given back can never match the operator class). -/
def matchCmpAt (s : Str) : Bool :=
  if (s.takeWhile Char.isDigit).isEmpty then false
  else
    match (s.dropWhile Char.isDigit).dropWhile isSpace with
    | c :: rest =>
      opChar c &&
        (match rest.dropWhile isSpace with
         | d :: _ => Char.isDigit d
         | [] => false)
    | [] => false

/-- Match of `_\s*_\s*_` at one position. -/
def matchUnderscoreAt : Str → Bool
  | '_' :: r1 =>
    (match r1.dropWhile isSpace with
     | '_' :: r2 =>
       (match r2.dropWhile isSpace with
        | '_' :: _ => true
        | _ => false)
     | _ => false)
  | _ => false

/-- Match of `see (figure|image|diagram)` (IGNORECASE) at one position. -/
def matchSeeAt (s : Str) : Bool :=
  ciPrefix "see ".data s &&
    (ciPrefix "figure".data (s.drop 4) || ciPrefix "image".data (s.drop 4) ||
      ciPrefix "diagram".data (s.drop 4))

/-- Python `$` without MULTILINE: end of string, or just before a final
newline. -/
def atLineEnd (r : Str) : Bool := r.isEmpty || r == ['\n']

/-- Match of `below\s*:?$` (IGNORECASE) at one position. -/
def matchBelowAt (s : Str) : Bool :=
  ciPrefix "below".data s &&
    (let r := (s.drop 5).dropWhile isSpace
     atLineEnd r || (match r with | ':' :: r2 => atLineEnd r2 | _ => false))

/-- Python `re.search`: try the matcher at every position (including the final empty
suffix). -/
def searchAny (f : Str → Bool) : Str → Bool
  | [] => f []
  | c :: rest => f (c :: rest) || searchAny f rest

/-- Model of `_is_question_with_image`. -/
def is_question_with_image (t : Str) : Bool :=
  searchAny matchCmpAt t || searchAny matchUnderscoreAt t ||
    searchAny matchSeeAt t || searchAny matchBelowAt t

structure PageImage where
  ext : Str
  hash : Nat
deriving DecidableEq

structure Page where
  text : Str
  images : List PageImage
deriving DecidableEq

/-- A harvested image: the entry appended to `all_images`. -/
structure HImage where
  page : Nat
  image : Str
deriving DecidableEq

def pyLower (s : Str) : Str := s.map Char.toLower

def pyUpper (s : Str) : Str := s.map Char.toUpper

/-- Model of `VALID_IMAGE_EXTS`. -/
def validImageExts : List Str := ["png".data, "jpg".data, "jpeg".data, "jpe".data]

/-- Path `os.path.join(IMAGE_DIR, f"page{page}_image{idx}.{ext}")`. -/
def imagePath (page idx : Nat) (ext : Str) : Str :=
  "output/images/page".data ++ natToStr page ++ "_image".data ++ natToStr idx ++ '.' :: ext

/-- The image-harvest loop of `extract_content` (lines 94-112): per page
(0-based), per embedded image (1-based), keep images whose lowered extension
is accepted and whose fingerprint does not match the logo fingerprint.
`self.vedantu_logo_hash` is `None` when the logo file is absent, modelled as
`logo = none`; an MD5 hex digest is always truthy, modelled as `logo.isSome`. -/
def harvestImages (logo : Option Nat) (pages : List Page) : List HImage :=
  pages.enum.flatMap (fun pg =>
    (pg.2.images.enumFrom 1).filterMap (fun im =>
      let ext := pyLower im.2.ext
      if !(validImageExts.contains ext) then none
      else if (match logo with | some h => im.2.hash == h | none => false) then none
      else some ⟨pg.1 + 1, imagePath (pg.1 + 1) im.1 ext⟩))

/-- Model of `_should_skip_page` (its `text` argument is the already-stripped page
text; extracting and hashing the single image is modelled by the image's
stored fingerprint). -/
def should_skip_page (logo : Option Nat) (text : Str) (imageInfos : List PageImage) : Bool :=
  if text.isEmpty && imageInfos.length == 1 && logo.isSome then
    match imageInfos, logo with
    | [im], some h => im.hash == h
    | _, _ => false
  else false

/-- Marker `f"\n---page{n}---\n"`. -/
def pageMarker (n : Nat) : Str :=
  '\n' :: ("---page".data ++ natToStr n ++ "---".data) ++ ['\n']

/-- The text-collection loop of `extract_content` (lines 115-120):
`all_text += f"\n---page{n+1}---\n{text}"` for every non-skipped page. -/
def collectAllText (logo : Option Nat) (pages : List Page) : Str :=
  pages.enum.foldl (fun acc pg =>
    let t := pyStrip pg.2.text
    if should_skip_page logo t pg.2.images then acc
    else acc ++ pageMarker (pg.1 + 1) ++ t) []

/-- Pattern `^\d+\.\s` at the head of the string: digits, a period, one whitespace
character. -/
def qBoundaryStart (s : Str) : Bool :=
  !(s.takeWhile Char.isDigit).isEmpty &&
    (match s.dropWhile Char.isDigit with
     | '.' :: w :: _ => isSpace w
     | _ => false)

/-- Pattern `\n\d+\.\s` at one position: the non-anchored alternative of the
zero-width split pattern. -/
def qBoundaryNL : Str → Bool
  | '\n' :: rest => qBoundaryStart rest
  | _ => false

/-- Scanning part of `re.split(r'(?=\n\d+\.\s|\A\d+\.\s)', s)`: a piece ends
(and a new one begins) just before every position matching the lookahead. -/
def splitQAux : Nat → Str → Str → List Str
  | 0, acc, s => [acc.reverse ++ s]
  | _ + 1, acc, [] => [acc.reverse]
  | fuel + 1, acc, c :: rest =>
    if qBoundaryNL (c :: rest) then acc.reverse :: splitQAux fuel [c] rest
    else splitQAux fuel (c :: acc) rest

/-- Model of `re.split(r'(?=\n\d+\.\s|\A\d+\.\s)', s)` (line 123-124); the `\A`
alternative can only fire at position 0, producing a leading empty piece. -/
def splitQuestions (s : Str) : List Str :=
  if qBoundaryStart s then [] :: splitQAux s.length [] s else splitQAux s.length [] s

/-- Model of `re.match(r'^(\d+)\.', q)`: digits then a period. -/
def hasNumDot (q : Str) : Bool :=
  !(q.takeWhile Char.isDigit).isEmpty &&
    (match q.dropWhile Char.isDigit with
     | '.' :: _ => true
     | _ => false)

/-- Python `needle in hay` on strings: substring containment. -/
def containsSub (needle : Str) : Str → Bool
  | [] => List.isPrefixOf needle []
  | c :: t => List.isPrefixOf needle (c :: t) || containsSub needle t

/-- Model of `re.search(r'---page(\d+)---', q)` (line 140): number of the first page
marker occurring in the span, if any. -/
def findPageMarker : Str → Option Nat
  | [] => none
  | c :: rest =>
    match pageMarkerAt (c :: rest) with
    | some (n, _) => some n
    | none => findPageMarker rest

/-- JSON-able values appearing in a question record. -/
inductive JVal where
  | str : Str → JVal
  | null : JVal
  | strList : List Str → JVal
  | optList : List OptionRec → JVal
deriving DecidableEq

/-- One output record: the ordered key/value pairs of the Python dict
`question_obj`. -/
abbrev QRecord := List (Str × JVal)

/-- Step 3 of the assembler (lines 142-151): the primary-image candidates
`question_images` and the advanced cursor. -/
def primaryCandidates (A : List HImage) (idx : Nat) (clean : Str) (currentPage : Option Nat) :
    List Str × Nat :=
  if idx < A.length then
    if is_question_with_image clean || currentPage.isSome then
      let pageImages := A.filter (fun im => currentPage == some im.page)
      if pageImages.isEmpty then ([], idx)
      else (pageImages.map HImage.image, idx + pageImages.length)
    else
      match A[idx]? with
      | some im => ([im.image], idx + 1)
      | none => ([], idx + 1)
  else ([], idx)

/-- The option-image `while` loop (lines 153-156): up to 4 images from the
cursor onward. -/
def colOptAux (A : List HImage) : Nat → Nat → List Str × Nat
  | 0, idx => ([], idx)
  | fuel + 1, idx =>
    match A[idx]? with
    | some im =>
      let r := colOptAux A fuel (idx + 1)
      (im.image :: r.1, r.2)
    | none => ([], idx)

def collectOptionImages (A : List HImage) (idx : Nat) : List Str × Nat := colOptAux A 4 idx

/-- The dict construction of `extract_content` (lines 158-168): `question`
and `images` always, then `option_images` if any were collected, else
`options` if any inline options parse from the raw span. -/
def buildQuestionObj (clean : Str) (qImages optImages : List Str) (rawSpan : Str) : QRecord :=
  let base : QRecord :=
    [("question".data, JVal.str clean),
     ("images".data, match qImages with | [] => JVal.null | p :: _ => JVal.str p)]
  if optImages.isEmpty then
    if (extract_options rawSpan).isEmpty then base
    else base ++ [("options".data, JVal.optList (extract_options rawSpan))]
  else base ++ [("option_images".data, JVal.strList optImages)]

/-- One iteration of the per-question loop (lines 131-170): the emitted
record (`none` when the span is filtered out by the CLASS/SECTION or
number-match checks) and the new cursor. -/
def processSpan (A : List HImage) (idx : Nat) (q : Str) : Option QRecord × Nat :=
  if List.isPrefixOf "CLASS".data (pyUpper q) || containsSub "SECTION".data (pyUpper q) then
    (none, idx)
  else if !hasNumDot q then (none, idx)
  else
    let pc := primaryCandidates A idx (clean_question_text q) (findPageMarker q)
    let co := collectOptionImages A pc.2
    (some (buildQuestionObj (clean_question_text q) pc.1 co.1 q), co.2)

/-- The whole per-question loop: records in span order plus the final cursor. -/
def assembleAux (A : List HImage) : List Str → Nat → List QRecord × Nat
  | [], idx => ([], idx)
  | q :: qs, idx =>
    let pr := processSpan A idx q
    let rest := assembleAux A qs pr.2
    ((match pr.1 with | some r => r :: rest.1 | none => rest.1), rest.2)

/-- Successive values of `image_index` across the assembly pass, starting
value included. -/
def cursorTrace (A : List HImage) : List Str → Nat → List Nat
  | [], idx => [idx]
  | q :: qs, idx => idx :: cursorTrace A qs (processSpan A idx q).2

/-- Question segmentation (lines 123-125): split the blob, strip each piece,
keep pieces matching `^\d+\.\s`. -/
def rawQuestions (logo : Option Nat) (pages : List Page) : List Str :=
  (splitQuestions (collectAllText logo pages)).filterMap (fun q =>
    if qBoundaryStart (pyStrip q) then some (pyStrip q) else none)

/-- Model of `extract_content`: harvest, collect, segment, assemble. -/
def extract_content (logo : Option Nat) (pages : List Page) : List QRecord :=
  (assembleAux (harvestImages logo pages) (rawQuestions logo pages) 0).1

/-- The `option_images` entry of a record, if present. -/
def optionImagesOf (r : QRecord) : List Str :=
  match List.lookup "option_images".data r with
  | some (JVal.strList l) => l
  | _ => []

/-- Concrete document exercising the assembler: no text-only logo page, two
images on page 2, five on page 3, one question per page.  The logo file is
absent (`logo = none`). -/
def cexPages : List Page :=
  [⟨"1. aaa".data, []⟩,
   ⟨"2. bbb".data, [⟨"jpg".data, 1⟩, ⟨"jpg".data, 2⟩]⟩,
   ⟨"3. ccc".data,
    [⟨"jpg".data, 3⟩, ⟨"jpg".data, 4⟩, ⟨"jpg".data, 5⟩, ⟨"jpg".data, 6⟩, ⟨"jpg".data, 7⟩]⟩]

/-! ## Lemmas about whitespace collapsing -/

theorem mem_of_headOpt {l : Str} {c : Char} (h : l.head? = some c) : c ∈ l := by
  cases l with
  | nil => simp at h
  | cons a t => simp at h; simp [h]

theorem pySplitAux_good : ∀ (s acc : Str), (∀ c ∈ acc, isSpace c = false) →
    ∀ w ∈ pySplitAux s acc, goodWord w := by
  intro s
  induction s with
  | nil =>
    intro acc hacc w hw
    unfold pySplitAux at hw
    by_cases h : acc.isEmpty
    · simp [h] at hw
    · simp [h] at hw
      subst hw
      refine ⟨by simpa using h, ?_⟩
      intro c hc
      exact hacc c (by simpa using hc)
  | cons c t ih =>
    intro acc hacc w hw
    unfold pySplitAux at hw
    by_cases hc : isSpace c
    · rw [if_pos hc] at hw
      by_cases ha : acc.isEmpty
      · rw [if_pos ha] at hw
        exact ih [] (by simp) w hw
      · rw [if_neg ha] at hw
        rcases List.mem_cons.1 hw with rfl | hw'
        · refine ⟨by simpa using ha, ?_⟩
          intro d hd
          exact hacc d (by simpa using hd)
        · exact ih [] (by simp) w hw'
    · rw [if_neg hc] at hw
      refine ih (c :: acc) ?_ w hw
      intro d hd
      rcases List.mem_cons.1 hd with rfl | hd'
      · simpa using hc
      · exact hacc d hd'

theorem pySplit_good (s : Str) : ∀ w ∈ pySplit s, goodWord w :=
  pySplitAux_good s [] (by simp)

theorem pySplitAux_scan_word : ∀ (w : Str), (∀ c ∈ w, isSpace c = false) →
    ∀ (rest acc : Str), pySplitAux (w ++ rest) acc = pySplitAux rest (w.reverse ++ acc) := by
  intro w
  induction w with
  | nil => intro _ rest acc; simp
  | cons c w' ih =>
    intro h rest acc
    have hc : isSpace c = false := h c (by simp)
    have step : pySplitAux (c :: (w' ++ rest)) acc = pySplitAux (w' ++ rest) (c :: acc) := by
      simp [pySplitAux, hc]
    show pySplitAux (c :: (w' ++ rest)) acc = _
    rw [step, ih (fun d hd => h d (by simp [hd])) rest (c :: acc)]
    simp [List.append_assoc]

theorem pySplitAux_space (t acc : Str) (h : acc ≠ []) :
    pySplitAux (' ' :: t) acc = acc.reverse :: pySplitAux t [] := by
  simp [pySplitAux, h, show isSpace ' ' = true from rfl]

theorem pySplit_single (w : Str) (h : goodWord w) : pySplit w = [w] := by
  unfold pySplit
  have := pySplitAux_scan_word w h.2 [] []
  rw [List.append_nil] at this
  rw [this]
  unfold pySplitAux
  have : (w.reverse ++ []).isEmpty = false := by
    simp [List.isEmpty_iff, h.1]
  rw [this]
  simp

theorem pySplit_joinSpace : ∀ (ws : List Str), (∀ w ∈ ws, goodWord w) →
    pySplit (joinSpace ws) = ws := by
  intro ws
  induction ws with
  | nil => intro _; rfl
  | cons w ws ih =>
    intro h
    cases ws with
    | nil => exact pySplit_single w (h w (by simp))
    | cons v ws' =>
      have hw := h w (by simp)
      show pySplit (w ++ ' ' :: joinSpace (v :: ws')) = _
      unfold pySplit
      rw [pySplitAux_scan_word w hw.2 (' ' :: joinSpace (v :: ws')) []]
      rw [List.append_nil]
      rw [pySplitAux_space _ _ (by simp [hw.1])]
      rw [List.reverse_reverse]
      have : pySplitAux (joinSpace (v :: ws')) [] = pySplit (joinSpace (v :: ws')) := rfl
      rw [this, ih (fun u hu => h u (by simp [hu]))]

theorem joinSpace_ne_nil (ws : List Str) (h : ∀ w ∈ ws, goodWord w) (hne : ws ≠ []) :
    joinSpace ws ≠ [] := by
  cases ws with
  | nil => exact absurd rfl hne
  | cons w ws' =>
    cases ws' with
    | nil => exact (h w (by simp)).1
    | cons v ws'' =>
      show w ++ ' ' :: joinSpace (v :: ws'') ≠ []
      simp

theorem headOpt_append_left (l m : Str) (h : l ≠ []) : (l ++ m).head? = l.head? := by
  cases l with
  | nil => exact absurd rfl h
  | cons a t => rfl

theorem joinSpace_head_nospace (ws : List Str) (h : ∀ w ∈ ws, goodWord w) :
    ∀ c, (joinSpace ws).head? = some c → isSpace c = false := by
  intro c hc
  cases ws with
  | nil => simp [joinSpace] at hc
  | cons w ws' =>
    cases ws' with
    | nil =>
      exact (h w (by simp)).2 c (mem_of_headOpt hc)
    | cons v ws'' =>
      have hw := h w (by simp)
      rw [show joinSpace (w :: v :: ws'') = w ++ ' ' :: joinSpace (v :: ws'') from rfl] at hc
      rw [headOpt_append_left w _ hw.1] at hc
      exact hw.2 c (mem_of_headOpt hc)

theorem joinSpace_last_nospace : ∀ (ws : List Str), (∀ w ∈ ws, goodWord w) →
    ∀ c, (joinSpace ws).reverse.head? = some c → isSpace c = false := by
  intro ws
  induction ws with
  | nil => intro _ c hc; simp [joinSpace] at hc
  | cons w ws ih =>
    intro h c hc
    cases ws with
    | nil =>
      have hw := h w (by simp)
      exact hw.2 c (by simpa using mem_of_headOpt hc)
    | cons v ws' =>
      rw [show joinSpace (w :: v :: ws') = w ++ ' ' :: joinSpace (v :: ws') from rfl] at hc
      rw [List.reverse_append] at hc
      have hne : joinSpace (v :: ws') ≠ [] :=
        joinSpace_ne_nil _ (fun u hu => h u (by simp [hu])) (by simp)
      have hne2 : (' ' :: joinSpace (v :: ws')).reverse ≠ [] := by simp
      rw [headOpt_append_left _ _ hne2] at hc
      rw [show (' ' :: joinSpace (v :: ws')).reverse = (joinSpace (v :: ws')).reverse ++ [' ']
        from by simp] at hc
      rw [headOpt_append_left _ _ (by simpa using hne)] at hc
      exact ih (fun u hu => h u (by simp [hu])) c hc

theorem dropWhile_eq_self_of_head (p : Char → Bool) (l : Str)
    (h : ∀ c, l.head? = some c → p c = false) : l.dropWhile p = l := by
  cases l with
  | nil => rfl
  | cons a t =>
    rw [List.dropWhile_cons]
    rw [h a rfl]
    simp

theorem pyStrip_eq_self (l : Str) (h1 : ∀ c, l.head? = some c → isSpace c = false)
    (h2 : ∀ c, l.reverse.head? = some c → isSpace c = false) : pyStrip l = l := by
  unfold pyStrip
  rw [dropWhile_eq_self_of_head _ _ h1, dropWhile_eq_self_of_head _ _ h2, List.reverse_reverse]

theorem collapseWS_eq_join (s : Str) : collapseWS s = joinSpace (pySplit s) := by
  unfold collapseWS
  exact pyStrip_eq_self _ (joinSpace_head_nospace _ (pySplit_good s))
    (joinSpace_last_nospace _ (pySplit_good s))

theorem collapseWS_idem (s : Str) : collapseWS (collapseWS s) = collapseWS s := by
  rw [collapseWS_eq_join s, collapseWS_eq_join (joinSpace (pySplit s))]
  rw [pySplit_joinSpace _ (pySplit_good s)]

/-! ## Lemmas about the substitution scans -/

theorem dropWhile_append_of_all (p : Char → Bool) : ∀ (l m : Str), (∀ c ∈ l, p c = true) →
    (l ++ m).dropWhile p = m.dropWhile p := by
  intro l
  induction l with
  | nil => intro m _; rfl
  | cons c t ih =>
    intro m h
    rw [List.cons_append, List.dropWhile_cons, h c (by simp)]
    exact ih m (fun d hd => h d (by simp [hd]))

theorem scrubAux_empty (m : Str → Option Str) (fuel : Nat) : scrubAux m fuel [] = [] := by
  cases fuel <;> rfl

theorem scrubAux_match_step (m : Str → Option Str) (fuel : Nat) (c : Char) (rest rem : Str)
    (h : m (c :: rest) = some rem) :
    scrubAux m (fuel + 1) (c :: rest) = scrubAux m fuel rem := by
  simp [scrubAux, h]

theorem skipDot_cons_ne (x : Char) (xs : Str) (hx : x ≠ '.') : skipDot (x :: xs) = x :: xs := by
  unfold skipDot
  split
  · rename_i t heq
    injection heq with h1 _
    exact absurd h1 hx
  · rfl

theorem skipLBracket_cons_ne (x : Char) (xs : Str) (hx : x ≠ '[') :
    skipLBracket (x :: xs) = x :: xs := by
  unfold skipLBracket
  split
  · rename_i t heq
    injection heq with h1 _
    exact absurd h1 hx
  · rfl

/-- A full artifact — optional period, whitespace run, letter with independent
optional brackets — is consumed whole by `ansAfterLiteral`, leaving nothing
behind. -/
theorem ansAfterLiteral_artifact (period lb rb : Bool) (ws : Str) (c : Char)
    (hws : ∀ x ∈ ws, isSpace x = true) (hc : ansLetter c = true) :
    ansAfterLiteral ((if period then ['.'] else []) ++ ws ++
      (if lb then ['['] else []) ++ c :: (if rb then [']'] else [])) = some [] := by
  have hc8 : c = 'A' ∨ c = 'B' ∨ c = 'C' ∨ c = 'D' ∨
      c = 'a' ∨ c = 'b' ∨ c = 'c' ∨ c = 'd' := by
    simp [ansLetter] at hc
    tauto
  have hdot : c ≠ '.' := by
    rcases hc8 with rfl | rfl | rfl | rfl | rfl | rfl | rfl | rfl <;> decide
  have hbrk : c ≠ '[' := by
    rcases hc8 with rfl | rfl | rfl | rfl | rfl | rfl | rfl | rfl <;> decide
  have hcsp : isSpace c = false := by
    rcases hc8 with rfl | rfl | rfl | rfl | rfl | rfl | rfl | rfl <;> decide
  have h1 : skipDot ((if period then ['.'] else []) ++ ws ++
      (if lb then ['['] else []) ++ c :: (if rb then [']'] else [])) =
      ws ++ (if lb then ['['] else []) ++ c :: (if rb then [']'] else []) := by
    cases period with
    | true => rfl
    | false =>
      cases ws with
      | nil =>
        cases lb with
        | true => rfl
        | false => exact skipDot_cons_ne c _ hdot
      | cons w ws' =>
        have hw : w ≠ '.' := by
          intro hEq
          have hsp := hws w (by simp)
          rw [hEq] at hsp
          exact absurd hsp (by decide)
        exact skipDot_cons_ne w _ hw
  have h2 : (ws ++ (if lb then ['['] else []) ++ c :: (if rb then [']'] else [])).dropWhile
      isSpace = (if lb then ['['] else ([] : Str)) ++ c :: (if rb then [']'] else []) := by
    rw [List.append_assoc, dropWhile_append_of_all isSpace ws _ hws]
    cases lb with
    | true => rfl
    | false =>
      show List.dropWhile isSpace (c :: (if rb then [']'] else [])) =
        c :: (if rb then ([']'] : Str) else [])
      rw [List.dropWhile_cons, hcsp]
      simp
  have h3 : skipLBracket ((if lb then ['['] else ([] : Str)) ++
      c :: (if rb then [']'] else [])) = c :: (if rb then ([']'] : Str) else []) := by
    cases lb with
    | true => rfl
    | false => exact skipLBracket_cons_ne c _ hbrk
  unfold ansAfterLiteral
  rw [h1, h2, h3]
  simp only [hc, if_true]
  cases rb with
  | true => rfl
  | false => rfl

/-! ## C7: idempotence of `_clean_question_text` -/

/-- C7 (counterexample): cleaning is not idempotent.  On
`"---page---page3---1---"` the page-marker substitution glues the surrounding
characters into a fresh marker `---page1---` that only a second cleaning pass
removes, so cleaning its own output changes it again. -/
theorem c7_clean_not_idempotent :
    clean_question_text (clean_question_text "---page---page3---1---".data) ≠
      clean_question_text "---page---page3---1---".data := by
  decide

/-- C7 (amended): cleaning is idempotent on every input whose cleaned output
contains no residual answer-key artifact and no residual page marker, i.e. on
which the two substitution passes are no-ops; the whitespace collapse alone is
always idempotent. -/
theorem clean_idempotent_of_no_residual (s : Str)
    (hA : pyAnsSub (clean_question_text s) = clean_question_text s)
    (hP : pyPageSub (clean_question_text s) = clean_question_text s) :
    clean_question_text (clean_question_text s) = clean_question_text s := by
  show collapseWS (pyPageSub (pyAnsSub (clean_question_text s))) = clean_question_text s
  rw [hA, hP]
  show collapseWS (collapseWS (pyPageSub (pyAnsSub s))) = collapseWS (pyPageSub (pyAnsSub s))
  exact collapseWS_idem (pyPageSub (pyAnsSub s))

/-- Witness for C7's amended theorem at the concrete input `"1. hello"`. -/
theorem clean_idempotent_of_no_residual_witness :
    clean_question_text (clean_question_text "1. hello".data) =
      clean_question_text "1. hello".data :=
  clean_idempotent_of_no_residual "1. hello".data (by decide) (by decide)

/-! ## C8: removal of answer-key artifacts -/

/-- C8 (counterexample): whitespace between the bracket and the letter defeats
the removal entirely — `"Ans. [ B ]"` is an `Ans`-artifact with spacing, and
cleaning leaves it unchanged, so artifacts are not removed under arbitrary
spacing. -/
theorem c8_ans_artifact_survives_bracket_space :
    clean_question_text "Ans. [ B ]".data = "Ans. [ B ]".data := by
  decide

/-- C8 (amended): when a text consists exactly of an answer-key artifact —
`Ans` in any letter casing, an optional period, an arbitrary whitespace run,
and an answer letter `A`-`D` in either case with independently optional
opening and closing brackets — cleaning removes it entirely, yielding the
empty string.  Whitespace inside the brackets defeats the removal (see the
counterexample), so removal does not hold under arbitrary spacing. -/
theorem ans_artifact_removed (a n s : Char) (period lb rb : Bool) (ws : Str) (c : Char)
    (ha : a = 'A' ∨ a = 'a') (hn : n = 'n' ∨ n = 'N') (hs : s = 's' ∨ s = 'S')
    (hws : ∀ x ∈ ws, isSpace x = true) (hc : ansLetter c = true) :
    clean_question_text (a :: n :: s ::
      ((if period then ['.'] else []) ++ ws ++
        (if lb then ['['] else []) ++ c :: (if rb then [']'] else []))) = [] := by
  have hmatch : matchAnsTail (a :: n :: s ::
      ((if period then ['.'] else []) ++ ws ++
        (if lb then ['['] else []) ++ c :: (if rb then [']'] else []))) = some [] := by
    have h1 : matchAnsTail (a :: n :: s ::
        ((if period then ['.'] else []) ++ ws ++
          (if lb then ['['] else []) ++ c :: (if rb then [']'] else []))) =
        ansAfterLiteral ((if period then ['.'] else []) ++ ws ++
          (if lb then ['['] else []) ++ c :: (if rb then [']'] else [])) := by
      rcases ha with rfl | rfl <;> rcases hn with rfl | rfl <;> rcases hs with rfl | rfl <;>
        simp [matchAnsTail]
    rw [h1]
    exact ansAfterLiteral_artifact period lb rb ws c hws hc
  have hA : pyAnsSub (a :: n :: s ::
      ((if period then ['.'] else []) ++ ws ++
        (if lb then ['['] else []) ++ c :: (if rb then [']'] else []))) = [] := by
    show scrubAux matchAnsTail (a :: n :: s ::
      ((if period then ['.'] else []) ++ ws ++
        (if lb then ['['] else []) ++ c :: (if rb then [']'] else []))).length
      (a :: n :: s ::
        ((if period then ['.'] else []) ++ ws ++
          (if lb then ['['] else []) ++ c :: (if rb then [']'] else []))) = []
    have hlen : (a :: n :: s ::
        ((if period then ['.'] else []) ++ ws ++
          (if lb then ['['] else []) ++ c :: (if rb then [']'] else []))).length =
        (((if period then ['.'] else ([] : Str)) ++ ws ++
          (if lb then ['['] else []) ++ c :: (if rb then [']'] else [])).length + 2) + 1 := by
      simp
    rw [hlen]
    rw [scrubAux_match_step matchAnsTail _ a _ [] hmatch]
    exact scrubAux_empty _ _
  show collapseWS (pyPageSub (pyAnsSub (a :: n :: s ::
    ((if period then ['.'] else []) ++ ws ++
      (if lb then ['['] else []) ++ c :: (if rb then [']'] else []))))) = []
  rw [hA]
  rfl

/-- Witness for C8's amended theorem: `"Ans. [b]"` (period, one space, both
brackets, lowercase letter) cleans to the empty string. -/
theorem ans_artifact_removed_witness : clean_question_text "Ans. [b]".data = [] :=
  ans_artifact_removed 'A' 'n' 's' true true true [' '] 'b'
    (Or.inl rfl) (Or.inl rfl) (Or.inl rfl) (by decide) (by decide)

/-! ## Lemmas about the assembly loop -/

/-- The option-image loop returns exactly the next `fuel` image paths from the
cursor onward and advances the cursor by the number actually taken. -/
theorem colOptAux_spec (A : List HImage) : ∀ (fuel idx : Nat),
    colOptAux A fuel idx =
      (((A.map HImage.image).drop idx).take fuel,
       idx + (((A.map HImage.image).drop idx).take fuel).length) := by
  intro fuel
  induction fuel with
  | zero => intro idx; simp [colOptAux]
  | succ f ih =>
    intro idx
    cases h : A[idx]? with
    | none =>
      have hle : A.length ≤ idx := by
        rcases Nat.lt_or_ge idx A.length with hlt | hge
        · rw [List.getElem?_eq_getElem hlt] at h; simp at h
        · exact hge
      have hdrop : (A.map HImage.image).drop idx = [] :=
        List.drop_eq_nil_of_le (by simpa using hle)
      simp [colOptAux, h, hdrop]
    | some im =>
      have hlt : idx < A.length := by
        rcases List.getElem?_eq_some.1 h with ⟨h1, _⟩
        exact h1
      have him : A[idx] = im := by
        rcases List.getElem?_eq_some.1 h with ⟨_, h2⟩
        exact h2
      have hlt' : idx < (A.map HImage.image).length := by simpa using hlt
      have hdrop : (A.map HImage.image).drop idx =
          im.image :: (A.map HImage.image).drop (idx + 1) := by
        rw [List.drop_eq_getElem_cons hlt', List.getElem_map, him]
      rw [hdrop]
      simp only [colOptAux, h, ih (idx + 1), List.take_cons]
      refine Prod.ext rfl ?_
      simp
      omega

theorem primaryCandidates_le (A : List HImage) (idx : Nat) (clean : Str)
    (currentPage : Option Nat) : idx ≤ (primaryCandidates A idx clean currentPage).2 := by
  unfold primaryCandidates
  split
  · split
    · dsimp only
      split
      · simp
      · simp
    · split
      · simp
      · simp
  · simp

/-- Every iteration of the loop either filters the span (leaving the cursor
unchanged and emitting nothing) or emits the built record with the cursor left
by the option-image collection. -/
theorem processSpan_eq (A : List HImage) (idx : Nat) (q : Str) :
    processSpan A idx q = (none, idx) ∨
    processSpan A idx q =
      (some (buildQuestionObj (clean_question_text q)
          (primaryCandidates A idx (clean_question_text q) (findPageMarker q)).1
          (collectOptionImages A
            (primaryCandidates A idx (clean_question_text q) (findPageMarker q)).2).1 q),
        (collectOptionImages A
          (primaryCandidates A idx (clean_question_text q) (findPageMarker q)).2).2) := by
  unfold processSpan
  split
  · exact Or.inl rfl
  · split
    · exact Or.inl rfl
    · exact Or.inr rfl

theorem processSpan_le (A : List HImage) (idx : Nat) (q : Str) :
    idx ≤ (processSpan A idx q).2 := by
  rcases processSpan_eq A idx q with h | h
  · rw [h]
  · rw [h]
    show idx ≤ (collectOptionImages A _).2
    rw [collectOptionImages, colOptAux_spec]
    calc idx ≤ (primaryCandidates A idx (clean_question_text q) (findPageMarker q)).2 :=
          primaryCandidates_le A idx _ _
    _ ≤ _ := Nat.le_add_right _ _

theorem cursorTrace_ne_nil (A : List HImage) (qs : List Str) (idx : Nat) :
    cursorTrace A qs idx ≠ [] := by
  cases qs <;> simp [cursorTrace]

theorem lookup_buildQuestionObj_optImages (clean : Str) (qI oI : List Str) (q : Str) :
    optionImagesOf (buildQuestionObj clean qI oI q) = oI := by
  simp only [buildQuestionObj]
  cases oI with
  | nil =>
    rw [if_pos (show ([] : List Str).isEmpty = true from rfl)]
    by_cases he : (extract_options q).isEmpty = true
    · rw [if_pos he]
      rfl
    · rw [if_neg he]
      rfl
  | cons p ps =>
    rw [if_neg (show ¬(((p :: ps) : List Str).isEmpty = true) from by simp)]
    rfl

theorem lookup_buildQuestionObj_images (clean : Str) (qI oI : List Str) (q : Str) :
    List.lookup "images".data (buildQuestionObj clean qI oI q) =
      some (match qI with | [] => JVal.null | p :: _ => JVal.str p) := by
  simp only [buildQuestionObj]
  by_cases ho : oI.isEmpty = true
  · rw [if_pos ho]
    by_cases he : (extract_options q).isEmpty = true
    · rw [if_pos he]
      rfl
    · rw [if_neg he]
      rfl
  · rw [if_neg ho]
    rfl

theorem lookup_buildQuestionObj_excl (clean : Str) (qI oI : List Str) (q : Str) :
    ¬((List.lookup "option_images".data (buildQuestionObj clean qI oI q)).isSome ∧
      (List.lookup "options".data (buildQuestionObj clean qI oI q)).isSome) := by
  simp only [buildQuestionObj]
  by_cases ho : oI.isEmpty = true
  · rw [if_pos ho]
    by_cases he : (extract_options q).isEmpty = true
    · rw [if_pos he]
      intro hh
      have hfalse : (false : Bool) = true := hh.1
      cases hfalse
    · rw [if_neg he]
      intro hh
      have hfalse : (false : Bool) = true := hh.1
      cases hfalse
  · rw [if_neg ho]
    intro hh
    have hfalse : (false : Bool) = true := hh.2
    cases hfalse

theorem take_append_drop_lengthTake (n : Nat) (l : List Str) :
    l.take n ++ l.drop ((l.take n).length) = l := by
  rcases le_or_lt l.length n with h | h
  · rw [List.take_of_length_le h, List.drop_eq_nil_of_le (le_refl _)]
    simp
  · have hn : (l.take n).length = n := by
      rw [List.length_take]
      omega
    rw [hn]
    exact List.take_append_drop n l

theorem drop_sublist_drop_of_le (m n : Nat) (l : List Str) (h : m ≤ n) :
    List.Sublist (l.drop n) (l.drop m) := by
  have e : l.drop n = (l.drop m).drop (n - m) := by
    rw [List.drop_drop]
    congr 1
    omega
  rw [e]
  exact List.drop_sublist _ _

/-! ## C2: cursor monotonicity -/

/-- C2 (amended): throughout the assembly pass the shared image cursor is
non-decreasing — it is never reset or rewound between questions.
`cursorTrace` lists the successive cursor values; it starts at the initial
cursor and ends at the final cursor of `assembleAux`.  (The second half of
the original claim — that the cursor never exceeds the harvested-image list
length — is false; see the counterexample.) -/
theorem cursor_monotone_nondecreasing : ∀ (A : List HImage) (spans : List Str) (idx : Nat),
    List.Chain' (· ≤ ·) (cursorTrace A spans idx) ∧
    (cursorTrace A spans idx).head? = some idx ∧
    (cursorTrace A spans idx).getLast? = some (assembleAux A spans idx).2 := by
  intro A spans
  induction spans with
  | nil => intro idx; exact ⟨List.chain'_singleton idx, rfl, rfl⟩
  | cons q qs ih =>
    intro idx
    obtain ⟨hchain, hhead, hlast⟩ := ih (processSpan A idx q).2
    refine ⟨?_, rfl, ?_⟩
    · show List.Chain' (· ≤ ·) (idx :: cursorTrace A qs (processSpan A idx q).2)
      cases htr : cursorTrace A qs (processSpan A idx q).2 with
      | nil => exact absurd htr (cursorTrace_ne_nil A qs _)
      | cons b l =>
        rw [List.chain'_cons]
        rw [htr] at hhead hchain
        have hb : b = (processSpan A idx q).2 := by simpa using hhead
        exact ⟨hb ▸ processSpan_le A idx q, hchain⟩
    · show (idx :: cursorTrace A qs (processSpan A idx q).2).getLast? = _
      cases htr : cursorTrace A qs (processSpan A idx q).2 with
      | nil => exact absurd htr (cursorTrace_ne_nil A qs _)
      | cons b l =>
        rw [List.getLast?_cons_cons]
        rw [htr] at hlast
        exact hlast

/-- C2 (counterexample): on `cexPages` (7 harvested images) the second
question's recovered-page branch re-counts the five page-3 images although
four of them were already consumed as option images, leaving the cursor at
11 > 7.  So the cursor does exceed the harvested-image list length. -/
theorem c2_cursor_exceeds_length :
    (assembleAux (harvestImages none cexPages) (rawQuestions none cexPages) 0).2 = 11 ∧
    (harvestImages none cexPages).length = 7 := by
  constructor
  · decide
  · decide

/-! ## C1: each image consumed at most once, in harvest order -/

/-- C1 (amended): the option-image attachments, concatenated over all emitted
records of the assembly pass, form a sublist of the harvested image paths from
the starting cursor onwards — every harvested image fills at most one
option-image slot, and option images are consumed in harvest order.  The
page-based primary-candidate branch does not share this guarantee: it selects
images by page number without consulting the cursor and can re-attach images
already consumed (see the counterexample). -/
theorem optionImage_consumption_sublist : ∀ (A : List HImage) (spans : List Str) (idx : Nat),
    List.Sublist (((assembleAux A spans idx).1).flatMap optionImagesOf)
      ((A.map HImage.image).drop idx) := by
  intro A spans
  induction spans with
  | nil => intro idx; simp [assembleAux]
  | cons q qs ih =>
    intro idx
    rcases processSpan_eq A idx q with h | h
    · simp only [assembleAux, h]
      exact ih idx
    · simp only [assembleAux, h]
      rw [List.flatMap_cons, lookup_buildQuestionObj_optImages]
      simp only [collectOptionImages,
        colOptAux_spec A 4 (primaryCandidates A idx (clean_question_text q) (findPageMarker q)).2]
      refine List.Sublist.trans ?_
        (drop_sublist_drop_of_le idx
          (primaryCandidates A idx (clean_question_text q) (findPageMarker q)).2
          (A.map HImage.image) (primaryCandidates_le A idx _ _))
      have hrest := ih
        ((primaryCandidates A idx (clean_question_text q) (findPageMarker q)).2 +
          (((A.map HImage.image).drop
            (primaryCandidates A idx (clean_question_text q) (findPageMarker q)).2).take 4).length)
      rw [show (A.map HImage.image).drop
            ((primaryCandidates A idx (clean_question_text q) (findPageMarker q)).2 +
              (((A.map HImage.image).drop
                (primaryCandidates A idx (clean_question_text q) (findPageMarker q)).2).take 4).length) =
          ((A.map HImage.image).drop
            (primaryCandidates A idx (clean_question_text q) (findPageMarker q)).2).drop
            ((((A.map HImage.image).drop
              (primaryCandidates A idx (clean_question_text q) (findPageMarker q)).2).take 4).length)
        from by rw [List.drop_drop]] at hrest
      have hfinal := List.Sublist.append_left hrest
        (((A.map HImage.image).drop
          (primaryCandidates A idx (clean_question_text q) (findPageMarker q)).2).take 4)
      rw [take_append_drop_lengthTake] at hfinal
      exact hfinal

/-- C1 (counterexample): on `cexPages` the harvested image
`output/images/page3_image1.jpg` is attached both as an option image of the
first emitted record and as the primary image of the second emitted record —
one harvested image fills two slots across the emitted records. -/
theorem c1_image_double_attachment :
    "output/images/page3_image1.jpg".data ∈
      optionImagesOf ((extract_content none cexPages).headD []) ∧
    List.lookup "images".data ((extract_content none cexPages).getD 1 []) =
      some (JVal.str "output/images/page3_image1.jpg".data) := by
  constructor
  · decide
  · decide

/-! ## C3: text options and image options are mutually exclusive -/

/-- C3: no emitted record ever carries both an `options` entry and an
`option_images` entry — a question has text options, or image options, or
neither, never both. -/
theorem options_optionImages_mutually_exclusive :
    ∀ (A : List HImage) (spans : List Str) (idx : Nat) (r : QRecord),
      r ∈ (assembleAux A spans idx).1 →
      ¬((List.lookup "option_images".data r).isSome ∧
        (List.lookup "options".data r).isSome) := by
  intro A spans
  induction spans with
  | nil =>
    intro idx r hr
    simp [assembleAux] at hr
  | cons q qs ih =>
    intro idx r hr
    rcases processSpan_eq A idx q with h | h
    · simp only [assembleAux, h] at hr
      exact ih idx r hr
    · simp only [assembleAux, h] at hr
      rcases List.mem_cons.1 hr with rfl | hr'
      · exact lookup_buildQuestionObj_excl _ _ _ _
      · exact ih _ r hr'

/-- Witness for C3 at a concrete record produced by the assembler. -/
theorem options_optionImages_mutually_exclusive_witness :
    ¬((List.lookup "option_images".data
        ((assembleAux [] ["1. zz [A] t".data] 0).1.headD [])).isSome ∧
      (List.lookup "options".data
        ((assembleAux [] ["1. zz [A] t".data] 0).1.headD [])).isSome) :=
  options_optionImages_mutually_exclusive [] ["1. zz [A] t".data] 0 _ (by decide)

/-! ## C6: the `images` field -/

/-- C6 (amended): every emitted record carries an `images` entry — the key is
always present.  Its value is the first of the step-3 primary-image
candidates when at least one was attached, and JSON `null` otherwise.  (The
original claim, that the field is absent when no primary image was attached,
is false; see the counterexample.) -/
theorem images_field_always_present (A : List HImage) (idx : Nat) (q : Str) (r : QRecord)
    (h : (processSpan A idx q).1 = some r) :
    List.lookup "images".data r =
      some (match (primaryCandidates A idx (clean_question_text q) (findPageMarker q)).1 with
            | [] => JVal.null
            | p :: _ => JVal.str p) := by
  rcases processSpan_eq A idx q with h' | h'
  · rw [h'] at h
    simp at h
  · rw [h'] at h
    simp only [Option.some.injEq] at h
    rw [← h]
    exact lookup_buildQuestionObj_images _ _ _ _

/-- Witness for C6's amended theorem at a concrete span with no harvested
images. -/
theorem images_field_always_present_witness :
    List.lookup "images".data
        [("question".data, JVal.str "1. x".data), ("images".data, JVal.null)] =
      some (match (primaryCandidates [] 0 (clean_question_text "1. x".data)
              (findPageMarker "1. x".data)).1 with
            | [] => JVal.null
            | p :: _ => JVal.str p) :=
  images_field_always_present [] 0 "1. x".data _ (by decide)

/-- C6 (counterexample): a record with no primary image still has the
`images` key — present with value `null`, not absent. -/
theorem c6_images_field_present_when_null :
    List.lookup "images".data ((assembleAux [] ["1. x".data] 0).1.headD []) =
      some JVal.null := by
  decide

/-! ## C4: page skipping -/

theorem should_skip_page_iff (logo : Option Nat) (t : Str) (imgs : List PageImage) :
    should_skip_page logo t imgs = true ↔
      (t = [] ∧ imgs.length = 1 ∧ logo.isSome ∧ (imgs.map PageImage.hash).head? = logo) := by
  cases logo with
  | none => simp [should_skip_page]
  | some h =>
    cases imgs with
    | nil => simp [should_skip_page]
    | cons im tl =>
      cases tl with
      | nil =>
        by_cases ht : t = []
        · subst ht
          simp [should_skip_page]
        · simp [should_skip_page, ht, show t.isEmpty = false from by simpa using ht]
      | cons im2 tl2 =>
        simp [should_skip_page]

theorem collect_foldl_flatMap (logo : Option Nat) : ∀ (l : List (Nat × Page)) (acc : Str),
    l.foldl (fun acc pg =>
      let t := pyStrip pg.2.text
      if should_skip_page logo t pg.2.images then acc
      else acc ++ pageMarker (pg.1 + 1) ++ t) acc
    = acc ++ l.flatMap (fun pg =>
        if should_skip_page logo (pyStrip pg.2.text) pg.2.images then []
        else pageMarker (pg.1 + 1) ++ pyStrip pg.2.text) := by
  intro l
  induction l with
  | nil => intro acc; simp
  | cons pg l ih =>
    intro acc
    rw [List.foldl_cons, List.flatMap_cons]
    by_cases hs : should_skip_page logo (pyStrip pg.2.text) pg.2.images = true
    · simp only [hs, if_true]
      rw [ih]
      simp
    · simp only [hs, if_false]
      rw [ih]
      simp [List.append_assoc]

/-- C4: in the collected text blob a page contributes nothing (no text, no
page-boundary marker) precisely when its trimmed text is empty, it has
exactly one embedded image, a logo fingerprint exists and that image's
fingerprint equals the logo fingerprint; every other page — even one with no
text and no images — contributes its page-boundary marker immediately
followed by its trimmed text. -/
theorem page_skip_iff_blank_logo_page (logo : Option Nat) (pages : List Page) :
    collectAllText logo pages = pages.enum.flatMap (fun pg =>
      if pyStrip pg.2.text = ([] : Str) ∧ pg.2.images.length = 1 ∧ logo.isSome ∧
          (pg.2.images.map PageImage.hash).head? = logo
      then []
      else pageMarker (pg.1 + 1) ++ pyStrip pg.2.text) := by
  unfold collectAllText
  rw [collect_foldl_flatMap]
  rw [List.nil_append]
  have hpt : ∀ pg : Nat × Page,
      (if should_skip_page logo (pyStrip pg.2.text) pg.2.images then ([] : Str)
       else pageMarker (pg.1 + 1) ++ pyStrip pg.2.text) =
      (if pyStrip pg.2.text = ([] : Str) ∧ pg.2.images.length = 1 ∧ logo.isSome ∧
          (pg.2.images.map PageImage.hash).head? = logo
       then []
       else pageMarker (pg.1 + 1) ++ pyStrip pg.2.text) := by
    intro pg
    by_cases hc : should_skip_page logo (pyStrip pg.2.text) pg.2.images = true
    · rw [if_pos hc, if_pos ((should_skip_page_iff logo _ _).1 hc)]
    · rw [if_neg hc, if_neg (fun hclaim => hc ((should_skip_page_iff logo _ _).2 hclaim))]
  simp only [hpt]

/-! ## C5: the worked scenario span -/

/-- C5 (counterexample): on the scenario span the emitted record's question
text is the whole cleaned span — the option markup `[A] 3 ... [D] 6` is NOT
stripped from the question text, contradicting the claimed
`"1. What is 2+2?"`. -/
theorem c5_question_text_not_stripped :
    List.lookup "question".data
        ((assembleAux [] ["1. What is 2+2? [A] 3 [B] 4 [C] 5 [D] 6".data] 0).1.headD []) =
      some (JVal.str "1. What is 2+2? [A] 3 [B] 4 [C] 5 [D] 6".data) ∧
    List.lookup "question".data
        ((assembleAux [] ["1. What is 2+2? [A] 3 [B] 4 [C] 5 [D] 6".data] 0).1.headD []) ≠
      some (JVal.str "1. What is 2+2?".data) := by
  constructor
  · decide
  · decide

/-- C5 (amended): processing the span
`"1. What is 2+2? [A] 3 [B] 4 [C] 5 [D] 6"` with no harvested images yields
exactly one record whose question text is the full cleaned span (option
markup included), whose `images` entry is `null`, and whose `options` entry
has exactly four options labelled A-D with texts 3, 4, 5, 6; the cursor stays
at 0. -/
theorem span_scenario_record :
    assembleAux [] ["1. What is 2+2? [A] 3 [B] 4 [C] 5 [D] 6".data] 0 =
      ([[("question".data, JVal.str "1. What is 2+2? [A] 3 [B] 4 [C] 5 [D] 6".data),
         ("images".data, JVal.null),
         ("options".data, JVal.optList
           [⟨'A', "3".data⟩, ⟨'B', "4".data⟩, ⟨'C', "5".data⟩, ⟨'D', "6".data⟩])]], 0) := by
  decide

/-! ## C9: absent logo file disables logo filtering -/

/-- C9: when the reference logo file is absent no fingerprint is stored
(`logo = none`) and logo filtering is a no-op everywhere it is used: no page
is ever skipped as logo-only, and harvesting keeps every image with an
accepted extension — none is rejected as a logo match. -/
theorem missing_logo_noop :
    (∀ (t : Str) (imgs : List PageImage), should_skip_page none t imgs = false) ∧
    (∀ pages : List Page, harvestImages none pages = pages.enum.flatMap (fun pg =>
      (pg.2.images.enumFrom 1).filterMap (fun im =>
        if validImageExts.contains (pyLower im.2.ext) then
          some ⟨pg.1 + 1, imagePath (pg.1 + 1) im.1 (pyLower im.2.ext)⟩
        else none))) := by
  constructor
  · intro t imgs
    simp [should_skip_page]
  · intro pages
    unfold harvestImages
    have him : ∀ (pg : Nat × Page) (im : Nat × PageImage),
        (if !(validImageExts.contains (pyLower im.2.ext)) then none
         else if (match (none : Option Nat) with
                  | some h => im.2.hash == h | none => false) then none
         else some (⟨pg.1 + 1, imagePath (pg.1 + 1) im.1 (pyLower im.2.ext)⟩ : HImage)) =
        (if validImageExts.contains (pyLower im.2.ext) then
          some (⟨pg.1 + 1, imagePath (pg.1 + 1) im.1 (pyLower im.2.ext)⟩ : HImage)
         else none) := by
      intro pg im
      by_cases hv : validImageExts.contains (pyLower im.2.ext) = true
      · simp [hv]
      · simp [hv]
    simp only [him]

/-! ## C10: shape of extracted options -/

theorem partToOption_spec (p : Str) (o : OptionRec) (h : partToOption p = some o) :
    (o.label = 'A' ∨ o.label = 'B' ∨ o.label = 'C' ∨ o.label = 'D') ∧ o.text ≠ [] := by
  unfold partToOption at h
  split at h
  · rename_i c rest heq
    split at h
    · rename_i hc
      dsimp only at h
      split at h
      · exact absurd h (by simp)
      · rename_i hne
        simp only [Option.some.injEq] at h
        subst h
        constructor
        · simp only [Bool.or_eq_true, beq_iff_eq] at hc
          tauto
        · simpa using hne
    · exact absurd h (by simp)
  · exact absurd h (by simp)

/-- C10: every option record returned by `_extract_options` has a label among
A-D and a nonempty text; a bracketed label followed by no text (or only
whitespace) yields no entry, so the result can have fewer entries than the
span has bracketed labels — e.g. `"[A] [B] 4"` yields only the B option. -/
theorem extract_options_label_and_text :
    (∀ (q : Str) (o : OptionRec), o ∈ extract_options q →
      ((o.label = 'A' ∨ o.label = 'B' ∨ o.label = 'C' ∨ o.label = 'D') ∧ o.text ≠ [])) ∧
    extract_options "[A] [B] 4".data = [⟨'B', "4".data⟩] := by
  constructor
  · intro q o ho
    unfold extract_options at ho
    rw [List.mem_filterMap] at ho
    obtain ⟨p, _, hp⟩ := ho
    split at hp
    · exact absurd hp (by simp)
    · exact partToOption_spec p o hp
  · decide

/-- Witness for C10 at the concrete option produced from `"[A] [B] 4"`. -/
theorem extract_options_label_and_text_witness :
    (((⟨'B', "4".data⟩ : OptionRec).label = 'A' ∨ (⟨'B', "4".data⟩ : OptionRec).label = 'B' ∨
      (⟨'B', "4".data⟩ : OptionRec).label = 'C' ∨ (⟨'B', "4".data⟩ : OptionRec).label = 'D') ∧
     (⟨'B', "4".data⟩ : OptionRec).text ≠ []) :=
  extract_options_label_and_text.1 "[A] [B] 4".data ⟨'B', "4".data⟩ (by decide)
